import Mathlib

/-!
Verification of the catalog-analysis pipeline (`data_analysis.py`).

The pipeline is embedded shallowly: a dataframe is a list of records, each
cell a Python string modelled as a list of characters; the pandas
operations used by the source (`str.split(', ')`, `str.strip()`, filtering,
`explode`, `groupby/size/unstack(fill_value=0)`, `value_counts().nlargest`,
`.get(key, 0)`) are translated into executable Lean functions.
-/

namespace NetflixSpec

/-- Cell values are modelled as lists of characters, mirroring Python strings. -/
abbrev Str := List Char

/-- The sentinel substituted for null Country/Genre cells by the loader. -/
def missingTag : Str := "Missing".toList

def movieTag : Str := "Movie".toList

def tvShowTag : Str := "TV Show".toList

def unitedStatesTag : Str := "United States".toList

/-- One record of the Catalog Table after loading/preprocessing: the fields
the analyses read, plus the remaining columns carried through unchanged. -/
structure Row where
  contentType : Str
  releaseYear : Int
  country : Str
  genre : Str
  otherFields : List Str
deriving DecidableEq

/-- The two multi-value columns `explode_data_for_counting` is called with. -/
inductive Column where
  | country
  | genre
deriving DecidableEq

def colVal (r : Row) (c : Column) : Str :=
  match c with
  | Column.country => r.country
  | Column.genre => r.genre

/-- Python `str.split` with the fixed separator `", "`, as used by
`df[column].str.split(', ')`: non-overlapping matches scanned left to
right; a value with no separator yields a one-element list. -/
def pySplitCS : Str → List Str
  | [] => [[]]
  | [c] => [[c]]
  | c1 :: c2 :: rest =>
    if c1 = ',' ∧ c2 = ' ' then [] :: pySplitCS rest
    else
      match pySplitCS (c2 :: rest) with
      | [] => [[c1]]
      | t :: ts => (c1 :: t) :: ts

/-- Python `str.strip`, as used by `.str.strip()`: drop leading and
trailing whitespace. -/
def pyStrip (s : Str) : Str :=
  ((s.dropWhile Char.isWhitespace).reverse.dropWhile Char.isWhitespace).reverse

/-- Whether the separator `", "` occurs inside the string. -/
def hasSep : Str → Bool
  | [] => false
  | [_] => false
  | c1 :: c2 :: rest => (decide (c1 = ',') && decide (c2 = ' ')) || hasSep (c2 :: rest)

/-- A row of the Expanded Table: the original record plus the
`Split_Value` column added by the expansion. -/
structure ExpandedRow where
  orig : Row
  splitValue : Str
deriving DecidableEq

/-- `explode_data_for_counting` from the source: drop rows whose designated
column equals the sentinel (the column argument is always `Country` or
`Genre`, so the guard always applies), split the column on `", "`, emit one
row per tag via `explode`, then strip whitespace on the `Split_Value`
column. -/
def explode_data_for_counting (df : List Row) (c : Column) : List ExpandedRow :=
  let df_temp := df.filter (fun r => decide (colVal r c ≠ missingTag))
  let exploded :=
    (df_temp.map (fun r => (pySplitCS (colVal r c)).map (fun t => ExpandedRow.mk r t))).flatten
  exploded.map (fun e => ExpandedRow.mk e.orig (pyStrip e.splitValue))

/-- The block of expanded rows contributed by a single surviving record. -/
def explodeRow (r : Row) (c : Column) : List ExpandedRow :=
  (pySplitCS (colVal r c)).map (fun t => ExpandedRow.mk r (pyStrip t))

theorem explode_eq_flatMap (df : List Row) (c : Column) :
    explode_data_for_counting df c
      = (df.filter (fun r => decide (colVal r c ≠ missingTag))).flatMap
          (fun r => explodeRow r c) := by
  simp only [explode_data_for_counting, explodeRow, List.flatMap, List.map_flatten,
    List.map_map]
  refine congrArg List.flatten (List.map_congr_left ?_)
  intro r hr
  simp [Function.comp, List.map_map]

theorem pySplitCS_ne_nil : ∀ s : Str, pySplitCS s ≠ []
  | [] => by simp [pySplitCS]
  | [c] => by simp [pySplitCS]
  | c1 :: c2 :: rest => by
    by_cases h : c1 = ',' ∧ c2 = ' '
    · simp [pySplitCS, h]
    · cases hs : pySplitCS (c2 :: rest) with
      | nil => simp [pySplitCS, h, hs]
      | cons t ts => simp [pySplitCS, h, hs]

theorem pySplitCS_of_no_sep : ∀ s : Str, hasSep s = false → pySplitCS s = [s]
  | [], _ => by simp [pySplitCS]
  | [c], _ => by simp [pySplitCS]
  | c1 :: c2 :: rest, h => by
    have h1 : ¬ (c1 = ',' ∧ c2 = ' ') := by
      intro hc
      simp [hasSep, hc.1, hc.2] at h
    have h2 : hasSep (c2 :: rest) = false := by
      simp only [hasSep, Bool.or_eq_false_iff] at h
      exact h.2
    have ih := pySplitCS_of_no_sep (c2 :: rest) h2
    simp [pySplitCS, h1, ih]

/-- Concrete record used to exercise the expansion round-trip. -/
def rowABC : Row := Row.mk "Movie".toList 2020 "United States".toList "A, B, C".toList []

/-- Concrete record whose genre cell has no `", "` separator. -/
def rowNoSep : Row := Row.mk "Movie".toList 2019 "India".toList "  Drama  ".toList []

/-- Concrete record whose country cell lists the sentinel among other tags. -/
def rowUSMissing : Row := Row.mk "Movie".toList 2020 "US, Missing".toList "Drama".toList []

/-- C2: a record whose designated multi-value column holds `"A, B, C"`
contributes exactly three expanded rows, one per whitespace-trimmed tag,
each carrying the original record unchanged; the full expansion is the
concatenation of these per-record blocks over the non-sentinel rows; and a
value with no `", "` separator contributes exactly one row whose
`split_value` is the stripped original value. -/
theorem C2_expansion_round_trip (df : List Row) (c : Column) (r : Row)
    (hv : colVal r c = "A, B, C".toList) :
    explodeRow r c
        = [ExpandedRow.mk r "A".toList, ExpandedRow.mk r "B".toList,
           ExpandedRow.mk r "C".toList]
    ∧ explode_data_for_counting df c
        = (df.filter (fun x => decide (colVal x c ≠ missingTag))).flatMap
            (fun x => explodeRow x c)
    ∧ (∀ r2 : Row, ∀ v : Str, colVal r2 c = v → hasSep v = false →
        explodeRow r2 c = [ExpandedRow.mk r2 (pyStrip v)]) := by
  refine ⟨?_, explode_eq_flatMap df c, ?_⟩
  · rw [explodeRow, hv]
    have hsplit : pySplitCS ("A, B, C".toList) = ["A".toList, "B".toList, "C".toList] := by
      decide
    rw [hsplit]
    rfl
  · intro r2 v hv2 hsep
    rw [explodeRow, hv2, pySplitCS_of_no_sep v hsep]
    rfl

/-- Witness for C2 at concrete records. -/
theorem C2_expansion_round_trip_witness :
    explodeRow rowABC Column.genre
        = [ExpandedRow.mk rowABC "A".toList, ExpandedRow.mk rowABC "B".toList,
           ExpandedRow.mk rowABC "C".toList]
    ∧ explodeRow rowNoSep Column.genre = [ExpandedRow.mk rowNoSep (pyStrip "  Drama  ".toList)] :=
  ⟨(C2_expansion_round_trip [rowABC] Column.genre rowABC (by decide)).1,
   (C2_expansion_round_trip [rowABC] Column.genre rowABC (by decide)).2.2
     rowNoSep ("  Drama  ".toList) (by decide) (by decide)⟩

/-- C3 counterexample: a record whose country cell is `"US, Missing"` is not
equal to the sentinel, survives the filter, and the expansion emits a row
with `split_value = "Missing"`. -/
theorem C3_counterexample :
    ∃ e ∈ explode_data_for_counting [rowUSMissing] Column.country,
      e.splitValue = missingTag := by decide

/-- C3 amended: every row whose source value equals the sentinel is dropped
before splitting — every emitted row originates from a record of the input
whose designated column differs from `"Missing"` — but an emitted tag can
still equal `"Missing"` when it is one of several comma-separated values. -/
theorem C3_sentinel_row_exclusion (df : List Row) (c : Column) (e : ExpandedRow)
    (he : e ∈ explode_data_for_counting df c) :
    colVal e.orig c ≠ missingTag ∧ e.orig ∈ df := by
  rw [explode_eq_flatMap] at he
  rcases List.mem_flatMap.mp he with ⟨r, hr, hmem⟩
  rcases List.mem_map.mp hmem with ⟨t, ht, rfl⟩
  rcases List.mem_filter.mp hr with ⟨hdf, hpred⟩
  exact ⟨by simpa using hpred, hdf⟩

/-- Witness for the amended C3 at a concrete record. -/
theorem C3_sentinel_row_exclusion_witness :
    colVal (ExpandedRow.mk rowUSMissing "US".toList).orig Column.country ≠ missingTag
    ∧ (ExpandedRow.mk rowUSMissing "US".toList).orig ∈ [rowUSMissing] :=
  C3_sentinel_row_exclusion [rowUSMissing] Column.country _ (by decide)

/-! ## Objective 1: content-type trend pivot and window selection -/

def releaseYears (df : List Row) : List Int := df.map (fun r => r.releaseYear)

def dedupFirstAux {α : Type} [DecidableEq α] (seen : List α) : List α → List α
  | [] => []
  | x :: xs => if x ∈ seen then dedupFirstAux seen xs else x :: dedupFirstAux (x :: seen) xs

/-- Distinct values of a list, keeping first occurrences (the order in which
a pandas groupby or value_counts first meets each key). -/
def dedupFirst {α : Type} [DecidableEq α] (l : List α) : List α := dedupFirstAux [] l

def insertAsc (y : Int) : List Int → List Int
  | [] => [y]
  | z :: zs => if y ≤ z then y :: z :: zs else z :: insertAsc y zs

/-- Ascending insertion sort (groupby sorts its keys ascending). -/
def sortAsc (l : List Int) : List Int := l.foldr insertAsc []

/-- The index of the `groupby(['Release_Year', 'Content_Type']).size().unstack()`
pivot: the distinct release years present in the data, ascending. -/
def pivotIndex (df : List Row) : List Int := sortAsc (dedupFirst (releaseYears df))

def countYearType (df : List Row) (y : Int) (t : Str) : Nat :=
  (df.filter (fun r => decide (r.releaseYear = y ∧ r.contentType = t))).length

/-- `content_by_year`: one row per year present in the data, holding that
year's Movie and TV Show counts (`fill_value = 0` supplies a zero for a
(year, content type) combination with no records). -/
def contentByYear (df : List Row) : List (Int × Nat × Nat) :=
  (pivotIndex df).map (fun y => (y, countYearType df y movieTag, countYearType df y tvShowTag))

def listMaxI : List Int → Option Int
  | [] => none
  | x :: xs => some (match listMaxI xs with | none => x | some m => max x m)

def listMinI : List Int → Option Int
  | [] => none
  | x :: xs => some (match listMinI xs with | none => x | some m => min x m)

def maxYear? (df : List Row) : Option Int := listMaxI (releaseYears df)

def minYear? (df : List Row) : Option Int := listMinI (releaseYears df)

/-- `start_year`: `max - 10` when the maximum release year exceeds 2014,
otherwise the minimum release year. -/
def startYear? (df : List Row) : Option Int :=
  match maxYear? df, minYear? df with
  | some mx, some mn => some (if 2014 < mx then mx - 10 else mn)
  | _, _ => none

/-- `content_by_year_filtered = content_by_year[content_by_year.index >= start_year]`. -/
def contentByYearFiltered (df : List Row) : List (Int × Nat × Nat) :=
  match startYear? df with
  | some s => (contentByYear df).filter (fun p => decide (s ≤ p.1))
  | none => []

def intRange (a b : Int) : List Int := (List.range (b + 1 - a).toNat).map (fun i => a + Int.ofNat i)

/-- The year window the reporter selects: `start_year` through the maximum
release year, inclusive. -/
def selectedWindow (df : List Row) : List Int :=
  match startYear? df, maxYear? df with
  | some s, some mx => intRange s mx
  | _, _ => []

theorem mem_dedupFirstAux {α : Type} [DecidableEq α] :
    ∀ (l seen : List α) (x : α), x ∈ dedupFirstAux seen l ↔ x ∈ l ∧ x ∉ seen
  | [], seen, x => by simp [dedupFirstAux]
  | a :: as, seen, x => by
    by_cases ha : a ∈ seen
    · rw [dedupFirstAux, if_pos ha, mem_dedupFirstAux as seen x]
      constructor
      · exact fun h => ⟨List.mem_cons_of_mem a h.1, h.2⟩
      · rintro ⟨h1, h2⟩
        rcases List.mem_cons.mp h1 with rfl | hmem
        · exact absurd ha h2
        · exact ⟨hmem, h2⟩
    · rw [dedupFirstAux, if_neg ha]
      constructor
      · intro h
        rcases List.mem_cons.mp h with rfl | hmem
        · exact ⟨List.mem_cons_self x as, ha⟩
        · have := (mem_dedupFirstAux as (a :: seen) x).mp hmem
          refine ⟨List.mem_cons_of_mem a this.1, fun hx => this.2 (List.mem_cons_of_mem a hx)⟩
      · rintro ⟨h1, h2⟩
        rcases List.mem_cons.mp h1 with rfl | hmem
        · exact List.mem_cons_self x _
        · by_cases hax : x = a
          · subst hax; exact List.mem_cons_self x _
          · refine List.mem_cons_of_mem a ((mem_dedupFirstAux as (a :: seen) x).mpr ⟨hmem, ?_⟩)
            intro hx
            rcases List.mem_cons.mp hx with h | h
            · exact hax h
            · exact h2 h

theorem mem_dedupFirst {α : Type} [DecidableEq α] (l : List α) (x : α) :
    x ∈ dedupFirst l ↔ x ∈ l := by
  rw [dedupFirst, mem_dedupFirstAux]
  simp

theorem mem_insertAsc : ∀ (l : List Int) (y x : Int), x ∈ insertAsc y l ↔ x = y ∨ x ∈ l
  | [], y, x => by simp [insertAsc]
  | z :: zs, y, x => by
    rw [insertAsc]
    by_cases h : y ≤ z
    · rw [if_pos h]; simp
    · rw [if_neg h]
      simp only [List.mem_cons, mem_insertAsc zs y x]
      tauto

theorem mem_sortAsc (l : List Int) (x : Int) : x ∈ sortAsc l ↔ x ∈ l := by
  induction l with
  | nil => simp [sortAsc]
  | cons a as ih =>
    rw [sortAsc, List.foldr_cons, mem_insertAsc]
    rw [sortAsc] at ih
    rw [ih]
    simp

theorem mem_pivotIndex (df : List Row) (y : Int) :
    y ∈ pivotIndex df ↔ y ∈ releaseYears df := by
  rw [pivotIndex, mem_sortAsc, mem_dedupFirst]

theorem le_listMaxI : ∀ {l : List Int} {y m : Int}, y ∈ l → listMaxI l = some m → y ≤ m := by
  intro l
  induction l with
  | nil =>
    intro y m hy _
    exact absurd hy (List.not_mem_nil y)
  | cons x xs ih =>
    intro y m hy hm
    rcases List.mem_cons.mp hy with rfl | hmem
    · cases hxs : listMaxI xs with
      | none =>
        simp only [listMaxI, hxs, Option.some.injEq] at hm
        omega
      | some m2 =>
        simp only [listMaxI, hxs, Option.some.injEq] at hm
        subst hm
        exact le_max_left y m2
    · cases hxs : listMaxI xs with
      | none =>
        cases xs with
        | nil => exact absurd hmem (List.not_mem_nil y)
        | cons a as => simp [listMaxI] at hxs
      | some m2 =>
        simp only [listMaxI, hxs, Option.some.injEq] at hm
        subst hm
        exact le_trans (ih hmem hxs) (le_max_right x m2)

theorem listMinI_le : ∀ {l : List Int} {y m : Int}, y ∈ l → listMinI l = some m → m ≤ y := by
  intro l
  induction l with
  | nil =>
    intro y m hy _
    exact absurd hy (List.not_mem_nil y)
  | cons x xs ih =>
    intro y m hy hm
    rcases List.mem_cons.mp hy with rfl | hmem
    · cases hxs : listMinI xs with
      | none =>
        simp only [listMinI, hxs, Option.some.injEq] at hm
        omega
      | some m2 =>
        simp only [listMinI, hxs, Option.some.injEq] at hm
        subst hm
        exact min_le_left y m2
    · cases hxs : listMinI xs with
      | none =>
        cases xs with
        | nil => exact absurd hmem (List.not_mem_nil y)
        | cons a as => simp [listMinI] at hxs
      | some m2 =>
        simp only [listMinI, hxs, Option.some.injEq] at hm
        subst hm
        exact le_trans (min_le_right x m2) (ih hmem hxs)

theorem fst_mem_of_mem_contentByYear (df : List Row) (p : Int × Nat × Nat)
    (hp : p ∈ contentByYear df) : p.1 ∈ releaseYears df := by
  rcases List.mem_map.mp hp with ⟨y, hy, rfl⟩
  exact (mem_pivotIndex df y).mp hy

/-- Concrete table with a gap year: records in 2000 and 2002, none in 2001. -/
def cdfGap : List Row :=
  [Row.mk "Movie".toList 2000 "United States".toList "Drama".toList [],
   Row.mk "Movie".toList 2002 "India".toList "Drama".toList []]

/-- C1 counterexample: with records only in 2000 and 2002 the selected
window is 2000..2002, yet 2001 — a year inside the window with zero records
of both content types — is not a row of the filtered pivot: the pivot only
indexes years present in the data, so an empty year is omitted, not
zero-filled. -/
theorem C1_counterexample :
    2001 ∈ selectedWindow cdfGap
    ∧ 2001 ∉ (contentByYearFiltered cdfGap).map (fun p => p.1) := by decide

/-- C1 amended: the rows of the filtered pivot are exactly the years
present in the data that lie in the selected window, each with its two
per-content-type counts (zero-filled for a (year, content type)
combination with no records); a year in the window with no records at all
does not appear. -/
theorem C1_pivot_rows (df : List Row) (s : Int) (hs : startYear? df = some s) :
    ((contentByYearFiltered df).map (fun p => p.1)
        = (pivotIndex df).filter (fun y => decide (s ≤ y)))
    ∧ (∀ y : Int, y ∈ (contentByYearFiltered df).map (fun p => p.1)
          ↔ (y ∈ releaseYears df ∧ s ≤ y))
    ∧ (∀ p ∈ contentByYearFiltered df,
        p.2.1 = countYearType df p.1 movieTag ∧ p.2.2 = countYearType df p.1 tvShowTag) := by
  have hfe : contentByYearFiltered df = (contentByYear df).filter (fun p => decide (s ≤ p.1)) := by
    rw [contentByYearFiltered, hs]
  refine ⟨?_, ?_, ?_⟩
  · rw [hfe, contentByYear, List.filter_map, List.map_map]
    have h1 : ((fun p : Int × Nat × Nat => p.1)
        ∘ fun y : Int => (y, countYearType df y movieTag, countYearType df y tvShowTag))
        = fun y : Int => y := rfl
    have h2 : ((fun p : Int × Nat × Nat => decide (s ≤ p.1))
        ∘ fun y : Int => (y, countYearType df y movieTag, countYearType df y tvShowTag))
        = fun y : Int => decide (s ≤ y) := rfl
    rw [h1, h2, List.map_id']
  · intro y
    rw [hfe, contentByYear]
    constructor
    · intro h
      rcases List.mem_map.mp h with ⟨p, hp, rfl⟩
      have hmem := List.mem_filter.mp hp
      rcases List.mem_map.mp hmem.1 with ⟨z, hz, rfl⟩
      exact ⟨(mem_pivotIndex df z).mp hz, by simpa using hmem.2⟩
    · rintro ⟨h1, h2⟩
      refine List.mem_map.mpr ⟨(y, countYearType df y movieTag, countYearType df y tvShowTag),
        List.mem_filter.mpr ⟨List.mem_map.mpr ⟨y, (mem_pivotIndex df y).mpr h1, rfl⟩, by simpa⟩, rfl⟩
  · intro p hp
    rw [hfe] at hp
    have hmem := (List.mem_filter.mp hp).1
    rcases List.mem_map.mp hmem with ⟨y, hy, rfl⟩
    exact ⟨rfl, rfl⟩

/-- Witness for the amended C1 at the concrete gap table. -/
theorem C1_pivot_rows_witness :
    ((contentByYearFiltered cdfGap).map (fun p => p.1)
        = (pivotIndex cdfGap).filter (fun y => decide (2000 ≤ y)))
    ∧ (∀ y : Int, y ∈ (contentByYearFiltered cdfGap).map (fun p => p.1)
          ↔ (y ∈ releaseYears cdfGap ∧ 2000 ≤ y))
    ∧ (∀ p ∈ contentByYearFiltered cdfGap,
        p.2.1 = countYearType cdfGap p.1 movieTag
        ∧ p.2.2 = countYearType cdfGap p.1 tvShowTag) :=
  C1_pivot_rows cdfGap 2000 (by decide)

/-- Concrete table whose maximum year exceeds 2014. -/
def cdfRecent : List Row :=
  [Row.mk "Movie".toList 2016 "United States".toList "Drama".toList [],
   Row.mk "TV Show".toList 2020 "India".toList "Comedy".toList []]

/-- C4: if the maximum release year of the pivot exceeds 2014 the selected
window is exactly the 11 years `max - 10 .. max`; otherwise the start of
the window is the minimum year and the filter keeps the whole pivot. -/
theorem C4_window_selection (df : List Row) (mx mn : Int)
    (hmx : maxYear? df = some mx) (hmn : minYear? df = some mn) :
    (2014 < mx →
        startYear? df = some (mx - 10)
        ∧ selectedWindow df = intRange (mx - 10) mx
        ∧ (selectedWindow df).length = 11
        ∧ ∀ p ∈ contentByYearFiltered df, mx - 10 ≤ p.1 ∧ p.1 ≤ mx)
    ∧ (mx ≤ 2014 →
        startYear? df = some mn
        ∧ selectedWindow df = intRange mn mx
        ∧ contentByYearFiltered df = contentByYear df) := by
  constructor
  · intro hgt
    have hs : startYear? df = some (mx - 10) := by
      rw [startYear?, hmx, hmn]
      simp [hgt]
    have hw : selectedWindow df = intRange (mx - 10) mx := by
      rw [selectedWindow, hs, hmx]
    refine ⟨hs, hw, ?_, ?_⟩
    · rw [hw, intRange, List.length_map, List.length_range]
      omega
    · intro p hp
      rw [contentByYearFiltered, hs] at hp
      have h1 := List.mem_filter.mp hp
      have h2 : p.1 ∈ releaseYears df := fst_mem_of_mem_contentByYear df p h1.1
      exact ⟨by simpa using h1.2, le_listMaxI h2 hmx⟩
  · intro hle
    have hs : startYear? df = some mn := by
      rw [startYear?, hmx, hmn]
      simp [not_lt.mpr hle]
    refine ⟨hs, by rw [selectedWindow, hs, hmx], ?_⟩
    rw [contentByYearFiltered, hs]
    refine List.filter_eq_self.mpr ?_
    intro p hp
    have h2 : p.1 ∈ releaseYears df := fst_mem_of_mem_contentByYear df p hp
    simpa using listMinI_le h2 hmn

/-- Witness for C4: the recent branch at a table with maximum year 2020,
and the full-range branch at the gap table with maximum year 2002. -/
theorem C4_window_selection_witness :
    (startYear? cdfRecent = some 2010
      ∧ selectedWindow cdfRecent = intRange 2010 2020
      ∧ (selectedWindow cdfRecent).length = 11
      ∧ ∀ p ∈ contentByYearFiltered cdfRecent, (2020 : Int) - 10 ≤ p.1 ∧ p.1 ≤ 2020)
    ∧ (startYear? cdfGap = some 2000
      ∧ selectedWindow cdfGap = intRange 2000 2002
      ∧ contentByYearFiltered cdfGap = contentByYear cdfGap) := by
  constructor
  · have h := (C4_window_selection cdfRecent 2020 2016 (by decide) (by decide)).1 (by decide)
    exact ⟨h.1, by simpa using h.2.1, h.2.2.1, by simpa using h.2.2.2⟩
  · exact (C4_window_selection cdfGap 2002 2000 (by decide) (by decide)).2 (by decide)

/-! ## Objective 2: genre popularity recent window -/

/-- `recent_years = [y for y in range(max - 3, max + 1)]` over the catalog
table's release years. -/
def recentYears (df : List Row) : List Int :=
  match maxYear? df with
  | some mx => (List.range 4).map (fun i : Nat => mx - 3 + (i : Int))
  | none => []

/-- `recent_genres_df`: the exploded genre table restricted to rows whose
release year lies in the recent window (`isin(recent_years)`). -/
def recentGenresDf (df : List Row) : List ExpandedRow :=
  (explode_data_for_counting df Column.genre).filter
    (fun e => decide (e.orig.releaseYear ∈ recentYears df))

/-- One cell of `recent_genre_trends`: the (genre tag, year) count of the
window-restricted exploded table. -/
def recentTrendCount (df : List Row) (tag : Str) (y : Int) : Nat :=
  ((recentGenresDf df).filter
    (fun e => decide (e.splitValue = tag ∧ e.orig.releaseYear = y))).length

/-- The same (tag, year) count taken over the unrestricted exploded table. -/
def genreYearCount (df : List Row) (tag : Str) (y : Int) : Nat :=
  ((explode_data_for_counting df Column.genre).filter
    (fun e => decide (e.splitValue = tag ∧ e.orig.releaseYear = y))).length

/-- C5: the genre reporter's recent window is the four years
`max - 3 .. max` where `max` is the catalog's maximum release year; for a
year in the window the per-(tag, year) count agrees with the count over
all exploded rows of that tag and year, and a year outside the window
contributes no count at all. -/
theorem C5_recent_window (df : List Row) (mx : Int) (hmx : maxYear? df = some mx) :
    recentYears df = [mx - 3, mx - 2, mx - 1, mx]
    ∧ (∀ tag : Str, ∀ y : Int, y ∈ recentYears df →
        recentTrendCount df tag y = genreYearCount df tag y)
    ∧ (∀ tag : Str, ∀ y : Int, y ∉ recentYears df → recentTrendCount df tag y = 0) := by
  have hw : recentYears df = [mx - 3, mx - 2, mx - 1, mx] := by
    have hr : List.range 4 = [0, 1, 2, 3] := rfl
    rw [recentYears, hmx, hr]
    simp only [List.map_cons, List.map_nil, List.cons.injEq, and_true]
    omega
  refine ⟨hw, ?_, ?_⟩
  · intro tag y hy
    rw [recentTrendCount, recentGenresDf, genreYearCount, List.filter_filter]
    refine congrArg List.length (List.filter_congr ?_)
    intro e he
    by_cases hp : e.splitValue = tag ∧ e.orig.releaseYear = y
    · simp [hp.1, hp.2, hy]
    · have hd : decide (e.splitValue = tag ∧ e.orig.releaseYear = y) = false := by
        simpa using hp
      simp [hd]
  · intro tag y hy
    rw [recentTrendCount, recentGenresDf, List.filter_filter]
    rw [List.length_eq_zero, List.filter_eq_nil_iff]
    intro e he hcon
    rcases Bool.and_eq_true_iff.mp hcon with ⟨h1, h2⟩
    rcases of_decide_eq_true h1 with ⟨htag, hyear⟩
    exact hy (hyear ▸ of_decide_eq_true h2)

/-- Witness for C5 at the concrete two-record table with maximum year 2020. -/
theorem C5_recent_window_witness :
    recentYears cdfRecent = [2017, 2018, 2019, 2020]
    ∧ recentTrendCount cdfRecent "Comedy".toList 2020
        = genreYearCount cdfRecent "Comedy".toList 2020
    ∧ recentTrendCount cdfRecent "Drama".toList 2016 = 0 := by
  have h := C5_recent_window cdfRecent 2020 (by decide)
  exact ⟨by rw [h.1]; norm_num, h.2.1 ("Comedy".toList) 2020 (by decide),
    h.2.2 ("Drama".toList) 2016 (by decide)⟩

/-! ## Objective 3: country contribution -/

def countryExplodedDf (df : List Row) : List ExpandedRow :=
  explode_data_for_counting df Column.country

def tagCount (es : List ExpandedRow) (t : Str) : Nat :=
  (es.filter (fun e => decide (e.splitValue = t))).length

/-- `value_counts()`: one (tag, count) pair per distinct tag, listed in
first-appearance order before sorting. -/
def valueCounts (es : List ExpandedRow) : List (Str × Nat) :=
  (dedupFirst (es.map (fun e => e.splitValue))).map (fun t => (t, tagCount es t))

def insertByCountDesc (x : Str × Nat) : List (Str × Nat) → List (Str × Nat)
  | [] => [x]
  | y :: ys => if y.2 ≤ x.2 then x :: y :: ys else y :: insertByCountDesc x ys

/-- Stable sort by count descending (`nlargest` keeps first occurrences on
ties). -/
def sortByCountDesc (l : List (Str × Nat)) : List (Str × Nat) := l.foldr insertByCountDesc []

/-- `value_counts().nlargest(top_n)`: the `top_n` highest-count tags. -/
def nlargestCounts (es : List ExpandedRow) (n : Nat) : List (Str × Nat) :=
  (sortByCountDesc (valueCounts es)).take n

/-- `total_content = len(country_exploded_df)`. -/
def totalContent (df : List Row) : Nat := (countryExplodedDf df).length

/-- `us_count = overall_country_counts.get('United States', 0)`: a lookup
in the already-truncated top-n table, defaulting to zero. -/
def usCount (df : List Row) (n : Nat) : Nat :=
  ((nlargestCounts (countryExplodedDf df) n).lookup unitedStatesTag).getD 0

/-- `non_us_count = total_content - us_count`. -/
def nonUsCount (df : List Row) (n : Nat) : Nat := totalContent df - usCount df n

/-- US percentage as printed (float division modelled as exact rationals). -/
def usPercent (df : List Row) (n : Nat) : ℚ :=
  (usCount df n : ℚ) / (totalContent df : ℚ) * 100

def nonUsPercent (df : List Row) (n : Nat) : ℚ :=
  (nonUsCount df n : ℚ) / (totalContent df : ℚ) * 100

/-- Rounding to one decimal place, as the `:.1f` format does. -/
def round1 (q : ℚ) : ℚ := ((round (q * 10) : ℤ) : ℚ) / 10

/-- The percentage block of the country reporter: it divides by
`total_content` with no zero guard, so it is only defined when at least
one expanded country entry exists. -/
def usSplitPercents (df : List Row) (n : Nat) : Option (ℚ × ℚ) :=
  if totalContent df = 0 then none
  else some (usPercent df n, nonUsPercent df n)

theorem mem_insertByCountDesc :
    ∀ (l : List (Str × Nat)) (x p : Str × Nat), p ∈ insertByCountDesc x l ↔ p = x ∨ p ∈ l
  | [], x, p => by simp [insertByCountDesc]
  | y :: ys, x, p => by
    rw [insertByCountDesc]
    by_cases h : y.2 ≤ x.2
    · rw [if_pos h]; simp
    · rw [if_neg h]
      simp only [List.mem_cons, mem_insertByCountDesc ys x p]
      tauto

theorem mem_sortByCountDesc (l : List (Str × Nat)) (p : Str × Nat) :
    p ∈ sortByCountDesc l ↔ p ∈ l := by
  induction l with
  | nil => simp [sortByCountDesc]
  | cons a as ih =>
    rw [sortByCountDesc, List.foldr_cons, mem_insertByCountDesc]
    rw [sortByCountDesc] at ih
    rw [ih]
    simp

theorem snd_eq_of_mem_valueCounts (es : List ExpandedRow) (p : Str × Nat)
    (hp : p ∈ valueCounts es) : p.2 = tagCount es p.1 := by
  rcases List.mem_map.mp hp with ⟨t, ht, rfl⟩
  rfl

theorem mem_valueCounts_of_mem_nlargest (es : List ExpandedRow) (n : Nat) (p : Str × Nat)
    (hp : p ∈ nlargestCounts es n) : p ∈ valueCounts es :=
  (mem_sortByCountDesc (valueCounts es) p).mp (List.take_subset n _ hp)

theorem lookup_mem_of_eq_some :
    ∀ (l : List (Str × Nat)) (k : Str) (v : Nat), l.lookup k = some v → (k, v) ∈ l
  | [], k, v, h => by simp [List.lookup] at h
  | (a, b) :: t, k, v, h => by
    rw [List.lookup] at h
    cases hk : (k == a) with
    | true =>
      rw [hk] at h
      injection h with hv
      have hka : k = a := eq_of_beq hk
      subst hka
      subst hv
      exact List.mem_cons_self _ _
    | false =>
      rw [hk] at h
      exact List.mem_cons_of_mem _ (lookup_mem_of_eq_some t k v h)

theorem lookup_eq_none_of_not_mem_keys :
    ∀ (l : List (Str × Nat)) (k : Str), k ∉ l.map Prod.fst → l.lookup k = none
  | [], k, _ => rfl
  | (a, b) :: t, k, h => by
    rw [List.lookup]
    have hka : k ≠ a := by
      intro he
      exact h (by simp [he])
    have hk : (k == a) = false := beq_eq_false_iff_ne.mpr hka
    rw [hk]
    exact lookup_eq_none_of_not_mem_keys t k (fun hm => h (List.mem_cons_of_mem _ hm))

theorem usCount_le_totalContent (df : List Row) (n : Nat) :
    usCount df n ≤ totalContent df := by
  rw [usCount]
  cases hl : (nlargestCounts (countryExplodedDf df) n).lookup unitedStatesTag with
  | none => simp
  | some v =>
    simp only [Option.getD_some]
    have hmem := lookup_mem_of_eq_some _ _ _ hl
    have h2 := mem_valueCounts_of_mem_nlargest _ n _ hmem
    have h3 := snd_eq_of_mem_valueCounts _ _ h2
    simp only at h3
    rw [h3]
    exact List.length_filter_le _ _

theorem round1_close (q : ℚ) : |round1 q - q| ≤ 1 / 20 := by
  have h := abs_sub_round (q * 10)
  rw [abs_sub_comm] at h
  have h2 : round1 q - q = (((round (q * 10) : ℤ) : ℚ) - q * 10) / 10 := by
    rw [round1]; ring
  rw [h2, abs_div]
  have h10 : |(10 : ℚ)| = 10 := by norm_num
  rw [h10]
  linarith

/-- C6: the integer split is exact — `us_count + non_us_count = total_content`
— and the two printed one-decimal percentages sum to 100.0 within 0.1,
whenever the split is computed at all (a nonzero number of expanded
entries). -/
theorem C6_split_sums (df : List Row) (n : Nat) :
    usCount df n + nonUsCount df n = totalContent df
    ∧ (0 < totalContent df →
        |round1 (usPercent df n) + round1 (nonUsPercent df n) - 100| ≤ 1 / 10) := by
  have hle := usCount_le_totalContent df n
  constructor
  · rw [nonUsCount]; omega
  · intro hpos
    have htq : (totalContent df : ℚ) ≠ 0 := by
      exact_mod_cast Nat.pos_iff_ne_zero.mp hpos
    have hsum : usPercent df n + nonUsPercent df n = 100 := by
      rw [usPercent, nonUsPercent, nonUsCount, Nat.cast_sub hle]
      field_simp
      ring
    have h1 := round1_close (usPercent df n)
    have h2 := round1_close (nonUsPercent df n)
    have heq : round1 (usPercent df n) + round1 (nonUsPercent df n) - 100
        = (round1 (usPercent df n) - usPercent df n)
          + (round1 (nonUsPercent df n) - nonUsPercent df n) := by
      rw [← hsum]; ring
    rw [heq]
    calc |(round1 (usPercent df n) - usPercent df n)
            + (round1 (nonUsPercent df n) - nonUsPercent df n)|
        ≤ |round1 (usPercent df n) - usPercent df n|
            + |round1 (nonUsPercent df n) - nonUsPercent df n| := abs_add _ _
      _ ≤ 1 / 10 := by linarith

/-- Table whose top-1 country list excludes the United States even though
the United States occurs in the data. -/
def cdfTopN : List Row :=
  [Row.mk "Movie".toList 2020 "India".toList "Drama".toList [],
   Row.mk "Movie".toList 2021 "India".toList "Comedy".toList [],
   Row.mk "Movie".toList 2019 "United States".toList "Drama".toList []]

/-- Witness for C6 at the concrete three-record table. -/
theorem C6_split_sums_witness :
    usCount cdfTopN 10 + nonUsCount cdfTopN 10 = totalContent cdfTopN
    ∧ |round1 (usPercent cdfTopN 10) + round1 (nonUsPercent cdfTopN 10) - 100| ≤ 1 / 10 :=
  ⟨(C6_split_sums cdfTopN 10).1, (C6_split_sums cdfTopN 10).2 (by decide)⟩

/-- C7: the US count is looked up in the already-truncated top-n table with
a zero default: whenever "United States" is not among the top-n keys the
count is zero, even if it occurs in the data outside the top-n. -/
theorem C7_us_lookup_default (df : List Row) (n : Nat)
    (h : unitedStatesTag ∉ (nlargestCounts (countryExplodedDf df) n).map Prod.fst) :
    usCount df n = 0 := by
  rw [usCount, lookup_eq_none_of_not_mem_keys _ _ h]
  rfl

/-- Witness for C7: with `top_n = 1` the United States (one entry) loses to
India (two entries), is absent from the truncated table, and its reported
count is zero although it occurs in the data. -/
theorem C7_us_lookup_default_witness :
    unitedStatesTag ∉ (nlargestCounts (countryExplodedDf cdfTopN) 1).map Prod.fst
    ∧ 0 < tagCount (countryExplodedDf cdfTopN) unitedStatesTag
    ∧ usCount cdfTopN 1 = 0 :=
  ⟨by decide, by decide, C7_us_lookup_default cdfTopN 1 (by decide)⟩

/-- C10: the percentage block divides by `total_content` with no zero
guard; it is defined exactly when some record has a non-sentinel country,
and for a table whose every record has country `"Missing"` the
division-by-zero branch is reached. -/
theorem C10_division_reachable (df : List Row) (n : Nat) :
    (usSplitPercents df n = none ↔ totalContent df = 0)
    ∧ (totalContent df = 0 ↔ ∀ r ∈ df, colVal r Column.country = missingTag) := by
  constructor
  · rw [usSplitPercents]
    by_cases h : totalContent df = 0
    · simp [h]
    · simp [h]
  · rw [totalContent, countryExplodedDf, explode_eq_flatMap, List.length_eq_zero]
    constructor
    · intro h r hr
      by_contra hne
      have hmem : r ∈ (df.filter (fun x => decide (colVal x Column.country ≠ missingTag))) :=
        List.mem_filter.mpr ⟨hr, by simpa using hne⟩
      have hnil := List.flatMap_eq_nil_iff.mp h r hmem
      rw [explodeRow] at hnil
      exact pySplitCS_ne_nil _ (List.map_eq_nil_iff.mp hnil)
    · intro h
      rw [List.flatMap_eq_nil_iff]
      intro r hr
      have := List.mem_filter.mp hr
      exact absurd (h r this.1) (by simpa using this.2)

/-- Table in which every record's country is the sentinel. -/
def cdfAllMissing : List Row :=
  [Row.mk "Movie".toList 2020 missingTag "Drama".toList [],
   Row.mk "TV Show".toList 2021 missingTag "Comedy".toList []]

/-- Witness for C10: the all-sentinel table reaches the error branch. -/
theorem C10_division_reachable_witness :
    usSplitPercents cdfAllMissing 10 = none :=
  (C10_division_reachable cdfAllMissing 10).1.mpr
    ((C10_division_reachable cdfAllMissing 10).2.mpr (by decide))

/-! ## Pipeline: loading and the file-not-found path -/

/-- Console events of the pipeline, with markers for reporter invocation. -/
inductive LogEntry where
  | info (msg : Str)
  | errorNotFound (path : Str)
  | reporterContentType
  | reporterGenre
  | reporterCountry
deriving DecidableEq

def isErrorNotFound : LogEntry → Bool
  | LogEntry.errorNotFound _ => true
  | _ => false

def isReporterEvent : LogEntry → Bool
  | LogEntry.reporterContentType => true
  | LogEntry.reporterGenre => true
  | LogEntry.reporterCountry => true
  | _ => false

/-- A raw record as read from the delimited file, before renaming and the
sentinel fill; the date field is already parsed to a year (date handling is
outside the claims under verification). -/
structure RawRecord where
  category : Str
  releaseYear : Int
  country : Option Str
  genre : Option Str
  otherFields : List Str

/-- Column renaming plus `fillna('Missing')` on Country and Genre. -/
def preprocessRecord (r : RawRecord) : Row :=
  Row.mk r.category r.releaseYear (r.country.getD missingTag) (r.genre.getD missingTag)
    r.otherFields

/-- `load_and_preprocess_data`: the filesystem is a partial map from paths
to raw tables. A missing path prints one error naming the path and returns
no table; otherwise the cleaned table is returned. -/
def load_and_preprocess_data (fs : Str → Option (List RawRecord)) (path : Str) :
    Option (List Row) × List LogEntry :=
  match fs path with
  | none =>
      (none,
       [LogEntry.info "--- 1. Data Loading and Preprocessing ---".toList,
        LogEntry.errorNotFound path])
  | some raw =>
      (some (raw.map preprocessRecord),
       [LogEntry.info "--- 1. Data Loading and Preprocessing ---".toList,
        LogEntry.info "Dataset loaded".toList])

/-- `run_full_analysis`: load once; only when a table came back do the
three reporters run. -/
def run_full_analysis (fs : Str → Option (List RawRecord)) (path : Str) : List LogEntry :=
  let loaded := load_and_preprocess_data fs path
  match loaded.1 with
  | none => loaded.2
  | some _ =>
      loaded.2 ++
        [LogEntry.reporterContentType, LogEntry.reporterGenre, LogEntry.reporterCountry,
         LogEntry.info "--- Project Analysis Complete ---".toList]

/-- C8: loading from a path that does not resolve returns no table, the log
holds exactly one error notice and it reports the path, and the full run
invokes no reporter afterward. -/
theorem C8_file_not_found (fs : Str → Option (List RawRecord)) (path : Str)
    (h : fs path = none) :
    (load_and_preprocess_data fs path).1 = none
    ∧ (load_and_preprocess_data fs path).2.countP isErrorNotFound = 1
    ∧ LogEntry.errorNotFound path ∈ (load_and_preprocess_data fs path).2
    ∧ ∀ e ∈ run_full_analysis fs path, isReporterEvent e = false := by
  have hl : load_and_preprocess_data fs path
      = (none,
         [LogEntry.info "--- 1. Data Loading and Preprocessing ---".toList,
          LogEntry.errorNotFound path]) := by
    rw [load_and_preprocess_data, h]
  have hr : run_full_analysis fs path
      = [LogEntry.info "--- 1. Data Loading and Preprocessing ---".toList,
         LogEntry.errorNotFound path] := by
    rw [run_full_analysis, hl]
  refine ⟨by rw [hl], ?_, by rw [hl]; simp, ?_⟩
  · rw [hl]
    simp [List.countP_cons, isErrorNotFound]
  · rw [hr]
    intro e he
    rcases List.mem_cons.mp he with rfl | he2
    · rfl
    · rcases List.mem_cons.mp he2 with rfl | he3
      · rfl
      · exact absurd he3 (List.not_mem_nil e)

/-- Witness for C8: an empty filesystem and the configured path. -/
theorem C8_file_not_found_witness :
    (load_and_preprocess_data (fun _ => none) "Netflix Dataset.csv".toList).1 = none
    ∧ (load_and_preprocess_data (fun _ => none) "Netflix Dataset.csv".toList).2.countP
        isErrorNotFound = 1
    ∧ LogEntry.errorNotFound "Netflix Dataset.csv".toList
        ∈ (load_and_preprocess_data (fun _ => none) "Netflix Dataset.csv".toList).2
    ∧ ∀ e ∈ run_full_analysis (fun _ => none) "Netflix Dataset.csv".toList,
        isReporterEvent e = false :=
  C8_file_not_found (fun _ => none) ("Netflix Dataset.csv".toList) rfl

/-! ## Frame effect: the expansion does not mutate the input table -/

/-- A heap of dataframes — the source's frame-valued variables. Record
frames and expanded frames live in separate stores; an index into a store
is a reference. -/
structure Heap where
  rowFrames : List (List Row)
  expFrames : List (List ExpandedRow)

def getRowFrame (h : Heap) (i : Nat) : List Row := h.rowFrames.getD i []

def getExpFrame (h : Heap) (i : Nat) : List ExpandedRow := h.expFrames.getD i []

def allocRowFrame (h : Heap) (f : List Row) : Heap × Nat :=
  (Heap.mk (h.rowFrames ++ [f]) h.expFrames, h.rowFrames.length)

def allocExpFrame (h : Heap) (f : List ExpandedRow) : Heap × Nat :=
  (Heap.mk h.rowFrames (h.expFrames ++ [f]), h.expFrames.length)

def setExpFrame (h : Heap) (i : Nat) (f : List ExpandedRow) : Heap :=
  Heap.mk h.rowFrames (h.expFrames.set i f)

/-- `explode_data_for_counting` as a heap program: `df.copy()` allocates a
fresh frame, the filter rebinds `df_temp` to a new frame,
`assign(...).explode(...)` produces a new expanded frame, and the final
`.str.strip()` column assignment mutates that expanded frame in place.
Returns the heap as it stands after the call and a reference to the
result. -/
def explodeProgram (h0 : Heap) (dfRef : Nat) (c : Column) : Heap × Nat :=
  let copyStep := allocRowFrame h0 (getRowFrame h0 dfRef)
  let filterStep := allocRowFrame copyStep.1
    ((getRowFrame copyStep.1 copyStep.2).filter (fun r => decide (colVal r c ≠ missingTag)))
  let explodeStep := allocExpFrame filterStep.1
    (((getRowFrame filterStep.1 filterStep.2).map
        (fun r => (pySplitCS (colVal r c)).map (fun t => ExpandedRow.mk r t))).flatten)
  let stripped := setExpFrame explodeStep.1 explodeStep.2
    ((getExpFrame explodeStep.1 explodeStep.2).map
      (fun e => ExpandedRow.mk e.orig (pyStrip e.splitValue)))
  (stripped, explodeStep.2)

theorem getD_append_lt {α : Type} :
    ∀ (l l2 : List α) (i : Nat) (d : α), i < l.length → (l ++ l2).getD i d = l.getD i d
  | [], _, i, d, h => by simp at h
  | a :: as, l2, 0, d, _ => rfl
  | a :: as, l2, i + 1, d, h => by
    simp only [List.cons_append, List.getD_cons_succ]
    exact getD_append_lt as l2 i d (by simpa using h)

theorem getD_concat_self {α : Type} :
    ∀ (l : List α) (a d : α), (l ++ [a]).getD l.length d = a
  | [], a, d => rfl
  | x :: xs, a, d => by
    simp only [List.cons_append, List.length_cons, List.getD_cons_succ]
    exact getD_concat_self xs a d

theorem set_concat_self {α : Type} :
    ∀ (l : List α) (a b : α), (l ++ [a]).set l.length b = l ++ [b]
  | [], a, b => rfl
  | x :: xs, a, b => by
    simp only [List.cons_append, List.length_cons, List.set_cons_succ]
    rw [set_concat_self xs a b]

theorem explodeProgram_spec (h : Heap) (dfRef : Nat) (c : Column) :
    (explodeProgram h dfRef c).1.rowFrames
        = h.rowFrames ++ [getRowFrame h dfRef]
          ++ [(getRowFrame h dfRef).filter (fun r => decide (colVal r c ≠ missingTag))]
    ∧ (explodeProgram h dfRef c).1.expFrames
        = h.expFrames ++ [explode_data_for_counting (getRowFrame h dfRef) c]
    ∧ (explodeProgram h dfRef c).2 = h.expFrames.length := by
  refine ⟨?_, ?_, rfl⟩
  · simp only [explodeProgram, allocRowFrame, allocExpFrame, setExpFrame, getRowFrame,
      getExpFrame, getD_concat_self]
  · simp only [explodeProgram, allocRowFrame, allocExpFrame, setExpFrame, getRowFrame,
      getExpFrame, getD_concat_self, set_concat_self, explode_data_for_counting]

/-- C9: the expansion works on an independent copy: after the heap program
runs, the input frame is unchanged, and the frame it returns holds exactly
the value of the pure `explode_data_for_counting` on the input. -/
theorem C9_explode_no_mutation (h : Heap) (dfRef : Nat) (c : Column)
    (hlt : dfRef < h.rowFrames.length) :
    getRowFrame (explodeProgram h dfRef c).1 dfRef = getRowFrame h dfRef
    ∧ getExpFrame (explodeProgram h dfRef c).1 (explodeProgram h dfRef c).2
        = explode_data_for_counting (getRowFrame h dfRef) c := by
  obtain ⟨h1, h2, h3⟩ := explodeProgram_spec h dfRef c
  constructor
  · rw [getRowFrame, h1, List.append_assoc]
    exact getD_append_lt _ _ _ _ hlt
  · rw [getExpFrame, h2, h3, getD_concat_self]

/-- Witness for C9 at a one-frame heap. -/
theorem C9_explode_no_mutation_witness :
    getRowFrame (explodeProgram (Heap.mk [[rowABC]] []) 0 Column.genre).1 0
        = getRowFrame (Heap.mk [[rowABC]] []) 0
    ∧ getExpFrame (explodeProgram (Heap.mk [[rowABC]] []) 0 Column.genre).1
        (explodeProgram (Heap.mk [[rowABC]] []) 0 Column.genre).2
        = explode_data_for_counting (getRowFrame (Heap.mk [[rowABC]] []) 0) Column.genre :=
  C9_explode_no_mutation (Heap.mk [[rowABC]] []) 0 Column.genre (by decide)

end NetflixSpec
